import Mathlib

/-!
Verification of the transcription response-enrichment proxy of
captainslog-whisper (internal/proxy/proxy.go).

Go strings and byte slices are modelled as `List Char` (the bodies handled by
the proxy are byte strings; the claims only exercise byte-level behaviour, so
`Char` stands for one byte).  Go's standard-library helpers used by the code
(strings.Index, strings.Split, strings.TrimSpace, fmt.Sscanf "%f",
mime.ParseMediaType, mime/multipart.Reader, encoding/json) are modelled by
executable Lean functions whose doc comments state which stdlib behaviour they
capture.  Floating-point numbers (float64) are modelled as exact rationals.
-/

set_option maxRecDepth 100000

/-- The two-byte CRLF line terminator. -/
def crlf : List Char := ['\r', '\n']

/-- The blank-line header terminator "\r\n\r\n". -/
def crlf2 : List Char := crlf ++ crlf

/-- Models Go `unicode.IsSpace` (strings.TrimSpace's notion of whitespace):
ASCII whitespace plus the Unicode space code points. -/
def goIsSpace (c : Char) : Bool :=
  let n := c.toNat
  (9 ≤ n && n ≤ 13) || n == 32 || n == 133 || n == 160 || n == 5760 ||
  (8192 ≤ n && n ≤ 8202) || n == 8232 || n == 8233 || n == 8239 || n == 8287 ||
  n == 12288

/-- Models Go `strings.TrimSpace`: drop whitespace from both ends. -/
def goTrimSpace (s : List Char) : List Char :=
  ((s.dropWhile goIsSpace).reverse.dropWhile goIsSpace).reverse

/-- Tests whether `p` is a prefix of `s` (the anchored comparison
underlying `goIndex`). -/
def listStartsWith : List Char → List Char → Bool
  | _, [] => true
  | [], _ :: _ => false
  | c :: s, p :: ps => c == p && listStartsWith s ps

/-- Models Go `strings.Index s pat` (argument order: pattern first):
the index of the first occurrence of `pat` in `s`, or `none` when `pat`
does not occur (Go returns -1). -/
def goIndex (pat : List Char) : List Char → Option Nat
  | [] => if listStartsWith [] pat then some 0 else none
  | c :: t =>
    if listStartsWith (c :: t) pat then some 0
    else (goIndex pat t).map (· + 1)

/-- Fuel-driven worker for `goSplit`; the fuel bounds the number of
separator occurrences consumed and is always called with more fuel than
the length of the string. -/
def goSplitAux (sep : List Char) : Nat → List Char → List (List Char)
  | 0, s => [s]
  | fuel + 1, s =>
    match goIndex sep s with
    | none => [s]
    | some i => s.take i :: goSplitAux sep fuel (s.drop (i + sep.length))

/-- Models Go `strings.Split s sep` for a non-empty separator: the pieces of
`s` between non-overlapping occurrences of `sep`, scanned left to right.
(Go's behaviour for an empty separator — splitting into runes — is never
used by the proxy and is not modelled: all call sites pass a fixed
non-empty separator.) -/
def goSplit (sep s : List Char) : List (List Char) :=
  goSplitAux sep (s.length + 1) s

/-- Models Go `strings.Replace s old new 1` for non-empty `old`: replace the
first occurrence of `old` by `new`, or return `s` unchanged when `old` does
not occur. -/
def goReplace1 (s old new : List Char) : List Char :=
  match goIndex old s with
  | none => s
  | some i => s.take i ++ new ++ s.drop (i + old.length)

/-- Models Go `strings.Join parts sep`. -/
def goJoin (sep : List Char) : List (List Char) → List Char
  | [] => []
  | [x] => x
  | x :: y :: rest => x ++ sep ++ goJoin sep (y :: rest)

/-- The numeric value of a list of decimal digit characters, most significant
first (the accumulator loop shared by the number parsers). -/
def digitsToNat (ds : List Char) : Nat :=
  ds.foldl (fun n c => n * 10 + (c.toNat - 48)) 0

/-- Models the decimal subset of `fmt.Sscanf(s, "%f", &f)` as used by
`parseFloat` in proxy.go: skip leading whitespace, an optional sign, an
integer part and an optional fractional part; when no digit can be read the
scan fails and the Go variable keeps its zero value, so the result is 0.
(Exponent and hexadecimal float syntax are accepted by Sscanf but can never
occur in SRT timestamp components; they are not modelled.) -/
def parseFloat (s : List Char) : ℚ :=
  let t := s.dropWhile goIsSpace
  let neg : Bool := t.headD ' ' == '-'
  let u := if t.headD ' ' == '-' || t.headD ' ' == '+' then t.tail else t
  let ip := u.takeWhile Char.isDigit
  let r1 := u.dropWhile Char.isDigit
  let fp := if r1.headD ' ' == '.' then r1.tail.takeWhile Char.isDigit else []
  if ip = [] ∧ fp = [] then 0
  else
    (if neg then (-1 : ℚ) else 1) *
      ((digitsToNat ip : ℚ) + (digitsToNat fp : ℚ) / (10 : ℚ) ^ fp.length)

/-- Translated from `parseSRTTime` in proxy.go: convert "HH:MM:SS,mmm" to
seconds; the first comma becomes a dot, the string is split on ":", and
anything that does not yield exactly three components gives 0. -/
def parseSRTTime (t : List Char) : ℚ :=
  let t' := goReplace1 t [','] ['.']
  match goSplit [':'] t' with
  | [p0, p1, p2] =>
    parseFloat (goTrimSpace p0) * 3600 + parseFloat (goTrimSpace p1) * 60 +
      parseFloat (goTrimSpace p2)
  | _ => 0

/-- A time-aligned segment; `endTime` models the Go map key "end"
(`end` is reserved in Lean). -/
structure Segment where
  start : ℚ
  endTime : ℚ
  text : List Char
deriving DecidableEq

/-- Translated from the loop body of `parseSRT` in proxy.go: one block is
split into lines; blocks with fewer than 3 lines, or whose second line does
not split on " --> " into exactly two halves, are skipped (`none`). -/
def parseBlock (block : List Char) : Option Segment :=
  match goSplit ['\n'] (goTrimSpace block) with
  | _l0 :: l1 :: l2 :: rest =>
    match goSplit (" --> ".data) l1 with
    | [a, b] =>
      some ⟨parseSRTTime (goTrimSpace a), parseSRTTime (goTrimSpace b),
        goJoin [' '] (l2 :: rest)⟩
    | _ => none
  | _ => none

/-- Translated from `parseSRT` in proxy.go: the blocks of the trimmed input,
split on blank lines. -/
def srtBlocks (srt : List Char) : List (List Char) :=
  goSplit ('\n' :: '\n' :: []) (goTrimSpace srt)

/-- Translated from `parseSRT` in proxy.go: parse an SRT document into the
segments of its well-formed blocks, in order. -/
def parseSRT (srt : List Char) : List Segment :=
  (srtBlocks srt).filterMap parseBlock

/-- Modelled from the spec's words (§4.3): a well-formed SRT block has at
least 3 lines and its second line contains the " --> " separator splitting
it into exactly two timestamp halves.  Used to compare the code's
`parseBlock` against the spec's notion of well-formedness. -/
def specWellFormedBlock (block : List Char) : Bool :=
  let lines := goSplit ['\n'] (goTrimSpace block)
  decide (3 ≤ lines.length) &&
    decide ((goSplit (" --> ".data) (lines.getD 1 [])).length = 2)

/-- The segment a well-formed block denotes (junk on malformed blocks, which
are never selected). -/
def blockToSeg (block : List Char) : Segment :=
  match goSplit ['\n'] (goTrimSpace block) with
  | _l0 :: l1 :: l2 :: rest =>
    match goSplit (" --> ".data) l1 with
    | [a, b] =>
      ⟨parseSRTTime (goTrimSpace a), parseSRTTime (goTrimSpace b),
        goJoin [' '] (l2 :: rest)⟩
    | _ => ⟨0, 0, []⟩
  | _ => ⟨0, 0, []⟩

/-- The number of well-formed blocks of an SRT document (spec §8's count). -/
def countWellFormedBlocks (srt : List Char) : Nat :=
  (srtBlocks srt).countP specWellFormedBlock

/-! ### Digit strings and number parsing -/

/-- The canonical two-digit rendering of `n < 100`. -/
def d2 (n : Nat) : List Char := [Nat.digitChar (n / 10), Nat.digitChar (n % 10)]

/-- The canonical three-digit rendering of `n < 1000`. -/
def d3 (n : Nat) : List Char :=
  [Nat.digitChar (n / 100), Nat.digitChar (n / 10 % 10), Nat.digitChar (n % 10)]

/-- The canonical "HH:MM:SS,mmm" SRT timestamp string. -/
def srtTimeString (hh mm ss ms : Nat) : List Char :=
  d2 hh ++ ':' :: (d2 mm ++ ':' :: (d2 ss ++ ',' :: d3 ms))

/-- The character facts about a decimal digit that the timestamp parsing
proof needs. -/
def srtDigit (c : Char) : Prop :=
  c.isDigit = true ∧ goIsSpace c = false ∧ c ≠ '-' ∧ c ≠ '+' ∧ c ≠ '.' ∧
    c ≠ ':' ∧ c ≠ ','

instance (c : Char) : Decidable (srtDigit c) := by
  unfold srtDigit; infer_instance

/-! ### Multipart body helpers (internal/proxy/proxy.go) -/

/-- The search pattern built by `replaceMIMEField` in proxy.go:
the Go expression is the string concatenation of a quote-opened
name attribute, the field name, and a closing quote. -/
def fieldMarker (field : String) : List Char :=
  ("name=").data ++ '"' :: (field.data ++ ['"'])

/-- Translated from `replaceMIMEField` in proxy.go: a plain textual
find-and-replace on the raw body.  It searches the whole body for the first
occurrence of `name="<field>"`, then takes the value to be the bytes between
the first following "\r\n\r\n" and the next "\r\n", and splices in
`newValue`.  The `contentType` argument is accepted but never used, exactly
as in the Go function. -/
def replaceMIMEField (body : List Char) (contentType field newValue : String) :
    List Char :=
  let s := body
  match goIndex (fieldMarker field) s with
  | none => body
  | some idx =>
    let afterField := s.drop (idx + (fieldMarker field).length)
    match goIndex crlf2 afterField with
    | none => body
    | some headerEnd =>
      let valueStart := idx + (fieldMarker field).length + headerEnd + 4
      match goIndex crlf (s.drop valueStart) with
      | none => body
      | some valueEnd =>
        s.take valueStart ++ newValue.data ++ s.drop (valueStart + valueEnd)

/-- Strip one level of double quotes from a parameter value
(mime parameter values produced by multipart writers are quoted). -/
def unquoteParam (v : List Char) : List Char :=
  match v with
  | '"' :: r => r.takeWhile (fun c => !(c == '"'))
  | _ => v

/-- Finds the boundary parameter among the already-split parameter pieces of
a Content-Type header value. -/
def findBoundaryParam : List (List Char) → Option (List Char)
  | [] => none
  | p :: rest =>
    let q := goTrimSpace p
    if listStartsWith q (("boundary=").data) then some (unquoteParam (q.drop 9))
    else findBoundaryParam rest

/-- Models the use of `mime.ParseMediaType` in `extractMultipartField`: the
parameters after the media type are separated by ';' and the `boundary`
parameter's (possibly quoted) value is returned.  Malformed content types
without a boundary parameter yield `none` (Go: error or missing key). -/
def getBoundary (ct : List Char) : Option (List Char) :=
  match goSplit [';'] ct with
  | [] => none
  | _ :: params => findBoundaryParam params

/-- One parsed multipart part: the Content-Disposition `name` and `filename`
parameters ([] when absent, as Go's FormName/FileName return "") and the raw
content bytes. -/
structure MPart where
  name : List Char
  filename : List Char
  content : List Char
deriving DecidableEq

/-- Finds the Content-Disposition header line (canonical capitalisation, as
produced by multipart writers). -/
def findCDLine : List (List Char) → Option (List Char)
  | [] => none
  | l :: rest =>
    if listStartsWith l (("Content-Disposition:").data) then some l
    else findCDLine rest

/-- Finds a `key="value"` parameter among the trimmed `;`-separated pieces of
a Content-Disposition value, returning the unquoted value ([] when absent). -/
def findQuotedParam (key : List Char) : List (List Char) → List Char
  | [] => []
  | p :: rest =>
    let q := goTrimSpace p
    if listStartsWith q (key ++ '=' :: '"' :: []) then
      (q.drop (key.length + 2)).takeWhile (fun c => !(c == '"'))
    else findQuotedParam key rest

/-- Models how `mime/multipart.Reader` exposes one part: the header block
runs to the first blank line; `FormName` is the `name` parameter of a
`form-data` Content-Disposition, `FileName` the `filename` parameter. -/
def parsePart (raw : List Char) : MPart :=
  match goIndex crlf2 raw with
  | none => ⟨[], [], []⟩
  | some i =>
    let headerBlock := raw.take i
    let content := raw.drop (i + 4)
    match findCDLine (goSplit crlf headerBlock) with
    | none => ⟨[], [], content⟩
    | some line =>
      match goSplit [';'] (line.drop ("Content-Disposition:").length) with
      | [] => ⟨[], [], content⟩
      | dt :: params =>
        if goTrimSpace dt = ("form-data").data then
          ⟨findQuotedParam (("name").data) params,
            findQuotedParam (("filename").data) params, content⟩
        else ⟨[], [], content⟩

/-- Fuel-driven worker for `mpSplit`: given the bytes after an opening
delimiter line, cut the body at each "\r\n--boundary" delimiter; a "--"
after the delimiter closes the stream, a CRLF starts the next part, anything
else (or a missing closing delimiter) is a malformed stream (`none`). -/
def mpSplitAux (dashB : List Char) : Nat → List Char → Option (List (List Char))
  | 0, _ => none
  | fuel + 1, rem =>
    match goIndex (crlf ++ dashB) rem with
    | none => none
    | some i =>
      let part := rem.take i
      let after := rem.drop (i + 2 + dashB.length)
      if listStartsWith after ('-' :: '-' :: []) then some [part]
      else if listStartsWith after crlf then
        (mpSplitAux dashB fuel (after.drop 2)).map (fun ps => part :: ps)
      else none

/-- Models `mime/multipart.Reader` on a canonical CRLF body: the body must
start with the "--boundary\r\n" opening line; the raw byte ranges of the
parts (headers plus content) are returned in order.  `none` models the
reader erroring before the requested field is found. -/
def mpSplit (body boundary : List Char) : Option (List (List Char)) :=
  let dashB := '-' :: '-' :: boundary
  if listStartsWith body (dashB ++ crlf) then
    mpSplitAux dashB (body.length + 1) (body.drop (dashB.length + 2))
  else none

/-- Translated from the loop of `extractMultipartField` in proxy.go: parts
with an empty name or a non-empty filename are skipped; the first part whose
name matches gives its value (capped at 1024 bytes, trimmed). -/
def findField (fieldName : List Char) : List MPart → List Char
  | [] => []
  | p :: rest =>
    if p.name = [] ∨ p.filename ≠ [] then findField fieldName rest
    else if p.name = fieldName then goTrimSpace (p.content.take 1024)
    else findField fieldName rest

/-- Translated from `extractMultipartField` in proxy.go (with the multipart
stream reading modelled by `getBoundary`/`mpSplit`/`parsePart`): parse the
content type's boundary, walk the parts, and return the named form field's
trimmed value, or [] on any failure. -/
def extractMultipartField (body : List Char) (contentType fieldName : String) :
    List Char :=
  match getBoundary contentType.data with
  | none => []
  | some b =>
    match mpSplit body b with
    | none => []
    | some raws => findField fieldName.data (raws.map parsePart)

/-- Observation helper for the analysis below: the content bytes of the
first file part (a part carrying a filename) of a multipart body. -/
def getFilePartContent (body : List Char) (contentType : String) :
    Option (List Char) :=
  match getBoundary contentType.data with
  | none => none
  | some b =>
    match mpSplit body b with
    | none => none
    | some raws =>
      (raws.map parsePart).findSome? (fun p =>
        if p.filename ≠ [] then some p.content else none)

/-! ### JSON values (encoding/json model) -/

/-- JSON values as decoded by Go `encoding/json` into `interface{}`:
numbers (float64) are modelled as exact rationals, strings and object keys
as byte lists. -/
inductive Jx where
  | null
  | bool (b : Bool)
  | num (q : ℚ)
  | str (s : List Char)
  | arr (xs : List Jx)
  | obj (fs : List (List Char × Jx))

/-- Models `m[k] = v` on a Go map as an association-list update: replace the
binding when the key is present, append it otherwise. -/
def setKey : List (List Char × Jx) → List Char → Jx → List (List Char × Jx)
  | [], k, v => [(k, v)]
  | (k2, v2) :: rest, k, v =>
    if k2 = k then (k, v) :: rest else (k2, v2) :: setKey rest k v

/-- Models `m[k]` lookup on a Go map as an association-list lookup. -/
def getKey : List (List Char × Jx) → List Char → Option Jx
  | [], _ => none
  | (k2, v2) :: rest, k => if k2 = k then some v2 else getKey rest k

/-- JSON insignificant whitespace. -/
def jsonWs (c : Char) : Bool := c == ' ' || c == '\t' || c == '\n' || c == '\r'

/-- Hexadecimal digit value. -/
def hexVal (c : Char) : Option Nat :=
  if '0' ≤ c ∧ c ≤ '9' then some (c.toNat - 48)
  else if 'a' ≤ c ∧ c ≤ 'f' then some (c.toNat - 87)
  else if 'A' ≤ c ∧ c ≤ 'F' then some (c.toNat - 55)
  else none

/-- One JSON string escape sequence after the backslash (surrogate pairs are
not combined; Go would combine them, which no claim exercises). -/
def escChar (e : Char) (rest : List Char) : Option (Char × List Char) :=
  if e = '"' then some ('"', rest)
  else if e = '\\' then some ('\\', rest)
  else if e = '/' then some ('/', rest)
  else if e = 'b' then some (Char.ofNat 8, rest)
  else if e = 'f' then some (Char.ofNat 12, rest)
  else if e = 'n' then some ('\n', rest)
  else if e = 'r' then some ('\r', rest)
  else if e = 't' then some ('\t', rest)
  else if e = 'u' then
    match rest with
    | h1 :: h2 :: h3 :: h4 :: rest3 =>
      match hexVal h1, hexVal h2, hexVal h3, hexVal h4 with
      | some a, some b, some c, some d =>
        some (Char.ofNat (((a * 16 + b) * 16 + c) * 16 + d), rest3)
      | _, _, _, _ => none
    | _ => none
  else none

/-- JSON string body after the opening quote: content and remainder after the
closing quote. -/
def parseJStringAux : Nat → List Char → Option (List Char × List Char)
  | 0, _ => none
  | _ + 1, [] => none
  | fuel + 1, c :: rest =>
    if c = '"' then some ([], rest)
    else if c = '\\' then
      match rest with
      | [] => none
      | e :: rest2 =>
        match escChar e rest2 with
        | none => none
        | some (ch, r) =>
          match parseJStringAux fuel r with
          | none => none
          | some (cs, r2) => some (ch :: cs, r2)
    else
      match parseJStringAux fuel rest with
      | none => none
      | some (cs, r2) => some (c :: cs, r2)

/-- JSON string body with sufficient fuel. -/
def parseJString (s : List Char) : Option (List Char × List Char) :=
  parseJStringAux (s.length + 1) s

/-- The signed decimal exponent after `e`/`E`. -/
def parseExpTail2 (q : ℚ) (s : List Char) : Option (ℚ × List Char) :=
  let es : Int := match s with | '-' :: _ => -1 | _ => 1
  let s1 := match s with | '-' :: t => t | '+' :: t => t | _ => s
  let ed := s1.takeWhile Char.isDigit
  if ed = [] then none
  else some (q * (10 : ℚ) ^ (es * (digitsToNat ed : Int)), s1.dropWhile Char.isDigit)

/-- The exponent suffix of a JSON number applied to the mantissa. -/
def parseExpTail (q : ℚ) (s : List Char) : Option (ℚ × List Char) :=
  match s with
  | 'e' :: t => parseExpTail2 q t
  | 'E' :: t => parseExpTail2 q t
  | _ => some (q, s)

/-- A JSON number at the start of `s` (sign, integer part, optional fraction,
optional exponent) as an exact rational.  Leading zeros are accepted (a
harmless superset of the JSON grammar; Go rejects them, which no claim
exercises). -/
def parseJNumber (s : List Char) : Option (ℚ × List Char) :=
  let sign : ℚ := match s with | '-' :: _ => -1 | _ => 1
  let s1 := match s with | '-' :: t => t | _ => s
  let ip := s1.takeWhile Char.isDigit
  if ip = [] then none
  else
    let s2 := s1.dropWhile Char.isDigit
    match s2 with
    | '.' :: t =>
      let fp := t.takeWhile Char.isDigit
      if fp = [] then none
      else
        parseExpTail
          (sign * ((digitsToNat ip : ℚ) + (digitsToNat fp : ℚ) / (10 : ℚ) ^ fp.length))
          (t.dropWhile Char.isDigit)
    | _ => parseExpTail (sign * (digitsToNat ip : ℚ)) s2

mutual

/-- A JSON value at the start of the input, modelling the grammar
`encoding/json` accepts, with the remainder of the input. -/
def parseJValue : Nat → List Char → Option (Jx × List Char)
  | 0, _ => none
  | fuel + 1, s =>
    match s.dropWhile jsonWs with
    | 'n' :: 'u' :: 'l' :: 'l' :: r => some (Jx.null, r)
    | 't' :: 'r' :: 'u' :: 'e' :: r => some (Jx.bool true, r)
    | 'f' :: 'a' :: 'l' :: 's' :: 'e' :: r => some (Jx.bool false, r)
    | '"' :: r =>
      match parseJString r with
      | none => none
      | some (cs, r2) => some (Jx.str cs, r2)
    | '[' :: r =>
      match r.dropWhile jsonWs with
      | ']' :: r2 => some (Jx.arr [], r2)
      | _ => parseJArrItems fuel r []
    | '{' :: r =>
      match r.dropWhile jsonWs with
      | '}' :: r2 => some (Jx.obj [], r2)
      | _ => parseJObjItems fuel r []
    | t =>
      match parseJNumber t with
      | none => none
      | some (q, r) => some (Jx.num q, r)

/-- The comma-separated values of a non-empty JSON array, accumulated in
reverse. -/
def parseJArrItems : Nat → List Char → List Jx → Option (Jx × List Char)
  | 0, _, _ => none
  | fuel + 1, s, acc =>
    match parseJValue fuel s with
    | none => none
    | some (v, r) =>
      match r.dropWhile jsonWs with
      | ',' :: r2 => parseJArrItems fuel r2 (v :: acc)
      | ']' :: r2 => some (Jx.arr (v :: acc).reverse, r2)
      | _ => none

/-- The comma-separated members of a non-empty JSON object; a duplicate key
overwrites the earlier binding, as assignment into a Go map does. -/
def parseJObjItems : Nat → List Char → List (List Char × Jx) →
    Option (Jx × List Char)
  | 0, _, _ => none
  | fuel + 1, s, acc =>
    match s.dropWhile jsonWs with
    | '"' :: r =>
      match parseJString r with
      | none => none
      | some (k, r1) =>
        match r1.dropWhile jsonWs with
        | ':' :: r2 =>
          match parseJValue fuel r2 with
          | none => none
          | some (v, r3) =>
            match r3.dropWhile jsonWs with
            | ',' :: r4 => parseJObjItems fuel r4 (setKey acc k v)
            | '}' :: r4 => some (Jx.obj (setKey acc k v), r4)
            | _ => none
        | _ => none
    | _ => none

end

/-- Models `json.Unmarshal(body, &m)` for `m : map[string]interface{}`: the
body must be one JSON value followed only by whitespace, and that value must
be an object.  (Go's one divergent corner: `null` unmarshals into a nil map
without error; the claims below all require an actual JSON object, so the
model folds `null` into the failure case.) -/
def parseJsonObj (s : List Char) : Option (List (List Char × Jx)) :=
  match parseJValue (s.length + 1) s with
  | some (Jx.obj fs, rest) => if rest.dropWhile jsonWs = [] then some fs else none
  | _ => none

/-! ### The proxy (internal/proxy/proxy.go) -/

/-- An HTTP response from the backend: status code, headers
(Go `http.Header`, a multimap), body bytes. -/
structure HttpResponse where
  status : Nat
  headers : List (String × List String)
  body : List Char
deriving DecidableEq

/-- The parts of an inbound request that `Transcribe` reads: the method, the
Content-Type header, and the buffered body bytes. -/
structure Request where
  method : String
  contentType : String
  body : List Char

/-- The backend's behaviour for this request, as a function of the body the
proxy sends on each of the two possible calls; `none` models a transport
error (`client.Do` returning an error) or the request not being
constructible. -/
structure Backend where
  primary : List Char → Option HttpResponse
  secondary : List Char → Option HttpResponse

/-- What `Transcribe` writes to the client:
`err` — an `http.Error` with a status and message;
`pass` — the backend response forwarded unmodified (status, headers, body);
`raw` — the backend's body forwarded with `application/json` content type
(the invalid-JSON fallback);
`ok` — status 200 with the JSON serialization of the given object. -/
inductive TOut where
  | err (status : Nat) (msg : String)
  | pass (resp : HttpResponse)
  | raw (status : Nat) (body : List Char)
  | ok (obj : List (List Char × Jx))

/-- The HTTP status code each outcome is written with. -/
def TOut.statusOf : TOut → Nat
  | TOut.err s _ => s
  | TOut.pass r => r.status
  | TOut.raw s _ => s
  | TOut.ok _ => 200

/-- The outcome of one `Transcribe` call plus whether the secondary SRT
enrichment call was attempted. -/
structure TResult where
  out : TOut
  srtCalled : Bool

/-- Translated from the `isJSON` flag in `Transcribe`: initialised to true,
cleared when the extracted format is non-empty and different from "json". -/
def isJSONFormat (fmt : List Char) : Prop := ¬(fmt ≠ [] ∧ fmt ≠ ("json").data)

instance (fmt : List Char) : Decidable (isJSONFormat fmt) := by
  unfold isJSONFormat; infer_instance

/-- One segment as stored into the JSON object (Go builds
`map[string]interface{}` with keys "start", "end", "text"). -/
def segToJx (s : Segment) : Jx :=
  Jx.obj [(("start").data, Jx.num s.start), (("end").data, Jx.num s.endTime),
    (("text").data, Jx.str s.text)]

/-- The value assigned to `jsonResp["segments"]`. -/
def segsToJx (l : List Segment) : Jx := Jx.arr (l.map segToJx)

/-- Translated from the SRT-enrichment block of `Transcribe` (proxy.go,
the secondary request): build the SRT body with `replaceMIMEField`, call the
backend; on success with status 200 parse the SRT and, when at least one
segment was parsed, overwrite the `segments` key; every failure leaves the
object untouched.  `none` from the backend covers both `http.NewRequest`
failing (Go then skips the call) and `client.Do` failing. -/
def enrichJSON (be : Backend) (req : Request) (obj : List (List Char × Jx)) :
    TResult :=
  let srtBody := replaceMIMEField req.body req.contentType "response_format" "srt"
  match be.secondary srtBody with
  | none => ⟨TOut.ok obj, true⟩
  | some sresp =>
    if sresp.status = 200 then
      let segments := parseSRT sresp.body
      if segments ≠ [] then
        ⟨TOut.ok (setKey obj (("segments").data) (segsToJx segments)), true⟩
      else ⟨TOut.ok obj, true⟩
    else ⟨TOut.ok obj, true⟩

/-- Translated from the JSON branch of `Transcribe`: unmarshal the primary
body; on failure forward the raw bytes with the backend's status code;
otherwise attempt enrichment. -/
def handleJSON (be : Backend) (req : Request) (resp : HttpResponse) : TResult :=
  match parseJsonObj resp.body with
  | none => ⟨TOut.raw resp.status resp.body, false⟩
  | some obj => enrichJSON be req obj

/-- Translated from `Transcribe` in proxy.go.  Steps: reject non-POST with
405; send the buffered body verbatim to the backend (transport error →
502); if the format is not JSON or the primary status is not 200, forward
the response unmodified; otherwise handle the JSON enrichment path.
(The body-read error path and the 100MB cap concern the I/O layer and are
not modelled; `req.body` is the successfully buffered body.) -/
def transcribe (be : Backend) (req : Request) : TResult :=
  if req.method ≠ "POST" then
    ⟨TOut.err 405 "\x7b\"error\": \"method not allowed\"\x7d", false⟩
  else
    match be.primary req.body with
    | none =>
      ⟨TOut.err 502 "\x7b\"error\": \"transcription backend unavailable\"\x7d", false⟩
    | some resp =>
      if ¬ isJSONFormat (extractMultipartField req.body req.contentType "response_format")
          ∨ resp.status ≠ 200 then
        ⟨TOut.pass resp, false⟩
      else handleJSON be req resp

/-- Translated from `Health` in proxy.go: the argument is the outcome of the
GET to `{base}/v1/models` (`none` = transport error).  The function returns
an error exactly on transport failure; any HTTP response — whatever its
status code — is drained, closed and reported healthy (`none` here models
Go's nil error). -/
def health (getResult : Option HttpResponse) : Option String :=
  match getResult with
  | none => some "backend unreachable"
  | some _ => none

/-! ### Concrete scenario used by the witnesses -/

/-- A canonical buffered multipart body: a `response_format=json` field part
followed by an audio file part, boundary `b`. -/
def wBody : List Char :=
  ("--b\r\nContent-Disposition: form-data; name=\"response_format\"\r\n\r\njson\r\n--b\r\nContent-Disposition: form-data; name=\"file\"; filename=\"a.wav\"\r\n\r\nRIFFdata\r\n--b--\r\n").data

/-- The matching Content-Type header. -/
def wCT : String := "multipart/form-data; boundary=b"

/-- A primary JSON body from the backend. -/
def wJson : List Char := ("\x7b\"text\": \"hello world\", \"lang\": \"en\"\x7d").data

/-- Its parsed object. -/
def wObj : List (List Char × Jx) :=
  [(("text").data, Jx.str (("hello world").data)), (("lang").data, Jx.str (("en").data))]

/-- A two-block SRT body from the backend's secondary call. -/
def wSrt : List Char :=
  ("1\n00:00:00,000 --> 00:00:01,500\nhello\n\n2\n00:00:01,500 --> 00:00:03,000\nworld\n").data

/-- The inbound request of the witness scenario. -/
def wReq : Request := ⟨"POST", wCT, wBody⟩

/-- A backend answering 200/JSON on the primary call and 200/SRT on the
secondary call. -/
def wBe : Backend :=
  ⟨fun _ => some ⟨200, [], wJson⟩, fun _ => some ⟨200, [], wSrt⟩⟩

/-- A backend answering 503 with a fixed error body. -/
def wBe503 : Backend :=
  ⟨fun _ => some ⟨503, [("Content-Type", ["application/json"])],
    ("\x7b\"error\": \"model not loaded\"\x7d").data⟩, fun _ => none⟩

/-- A backend whose secondary call fails at the transport level. -/
def wBeNoSrt : Backend := ⟨fun _ => some ⟨200, [], wJson⟩, fun _ => none⟩

/-- A multipart body whose audio file part contains the marker bytes
`name="response_format"` before the real `response_format` field part. -/
def cexBody : List Char :=
  ("--b\r\nContent-Disposition: form-data; name=\"file\"; filename=\"a.wav\"\r\n\r\nname=\"response_format\"\r\n\r\njson\r\n--b\r\nContent-Disposition: form-data; name=\"response_format\"\r\n\r\njson\r\n--b--\r\n").data

/-- Its Content-Type. -/
def cexCT : String := "multipart/form-data; boundary=b"

/-- The canonical two-part body (response_format part first, then an audio
file part) over boundary `b`, with the audio payload a parameter. -/
def canonP1 : List Char :=
  ("Content-Disposition: form-data; name=\"response_format\"\r\n\r\njson").data

/-- The same first part with value "srt". -/
def canonP1srt : List Char :=
  ("Content-Disposition: form-data; name=\"response_format\"\r\n\r\nsrt").data

/-- The file part's header block (ending in the blank line). -/
def canonFileHdr : List Char :=
  ("Content-Disposition: form-data; name=\"file\"; filename=\"a.wav\"\r\n\r\n").data

/-- The canonical body around an arbitrary audio payload. -/
def canonBody (audio : List Char) : List Char :=
  ("--b\r\n").data ++ (canonP1 ++ (("\r\n--b\r\n").data ++
    (canonFileHdr ++ (audio ++ ("\r\n--b--\r\n").data))))

/-- The canonical body after the `response_format` value is rewritten. -/
def canonSrtBody (audio : List Char) : List Char :=
  ("--b\r\n").data ++ (canonP1srt ++ (("\r\n--b\r\n").data ++
    (canonFileHdr ++ (audio ++ ("\r\n--b--\r\n").data))))

/-- The canonical Content-Type. -/
def canonCT : String := "multipart/form-data; boundary=b"

/-! ### Theorems -/

/-! ### Properties of the string helpers -/

theorem listStartsWith_pat_nil (s : List Char) : listStartsWith s [] = true := by
  cases s <;> rfl

theorem listStartsWith_append_self (p r : List Char) :
    listStartsWith (p ++ r) p = true := by
  induction p with
  | nil => exact listStartsWith_pat_nil r
  | cons c t ih => simp [listStartsWith, ih]

theorem listStartsWith_mono (p : List Char) :
    ∀ s r, listStartsWith s p = true → listStartsWith (s ++ r) p = true := by
  induction p with
  | nil => intro s r _; exact listStartsWith_pat_nil _
  | cons c t ih =>
    intro s r h
    cases s with
    | nil => simp [listStartsWith] at h
    | cons a s' =>
      simp [listStartsWith] at h ⊢
      exact ⟨h.1, ih s' r h.2⟩

theorem listStartsWith_length {s p : List Char} (h : listStartsWith s p = true) :
    p.length ≤ s.length := by
  induction p generalizing s with
  | nil => simp
  | cons c t ih =>
    cases s with
    | nil => simp [listStartsWith] at h
    | cons a s' =>
      simp [listStartsWith] at h
      simpa using ih h.2

theorem listStartsWith_of_append {p : List Char} :
    ∀ {s r : List Char}, listStartsWith (s ++ r) p = true → p.length ≤ s.length →
      listStartsWith s p = true := by
  induction p with
  | nil => intro s _ _ _; exact listStartsWith_pat_nil s
  | cons c t ih =>
    intro s r h hlen
    cases s with
    | nil => simp at hlen
    | cons a s' =>
      simp [listStartsWith] at h ⊢
      exact ⟨h.1, ih h.2 (by simpa using hlen)⟩

theorem goIndex_pat_nil (s : List Char) : goIndex [] s = some 0 := by
  cases s <;> simp [goIndex, listStartsWith_pat_nil]

theorem goIndex_bound {p s : List Char} {i : Nat} (h : goIndex p s = some i) :
    i + p.length ≤ s.length := by
  induction s generalizing i with
  | nil =>
    unfold goIndex at h
    split at h
    · cases p with
      | nil => simp_all
      | cons c t => simp [listStartsWith] at *
    · simp at h
  | cons a s' ih =>
    unfold goIndex at h
    split at h
    · obtain rfl : (0 : Nat) = i := by simpa using h
      simpa using listStartsWith_length (by assumption)
    · cases hm : goIndex p s' with
      | none => rw [hm] at h; simp at h
      | some j =>
        rw [hm] at h
        simp at h
        have := ih hm
        simp only [List.length_cons]
        omega

theorem goIndex_some_startsWith {p s : List Char} {i : Nat}
    (h : goIndex p s = some i) : listStartsWith (s.drop i) p = true := by
  induction s generalizing i with
  | nil =>
    unfold goIndex at h
    split at h
    · obtain rfl : (0 : Nat) = i := by simpa using h
      simpa using ‹listStartsWith [] p = true›
    · simp at h
  | cons a s' ih =>
    unfold goIndex at h
    split at h
    · obtain rfl : (0 : Nat) = i := by simpa using h
      simpa using ‹listStartsWith (a :: s') p = true›
    · cases hm : goIndex p s' with
      | none => rw [hm] at h; simp at h
      | some j =>
        rw [hm] at h
        simp at h
        subst h
        simpa using ih hm

theorem goIndex_none_startsWith {p s : List Char} (h : goIndex p s = none) :
    ∀ i, listStartsWith (s.drop i) p = false := by
  induction s with
  | nil =>
    intro i
    unfold goIndex at h
    split at h
    · simp at h
    · simpa using Bool.eq_false_iff.mpr (by simpa using ‹¬listStartsWith [] p = true›)
  | cons a s' ih =>
    intro i
    unfold goIndex at h
    split at h
    · simp at h
    · cases i with
      | zero =>
        simpa using Bool.eq_false_iff.mpr (by simpa using ‹¬listStartsWith (a :: s') p = true›)
      | succ j =>
        have hm : goIndex p s' = none := by
          cases hm : goIndex p s' with
          | none => rfl
          | some k => rw [hm] at h; simp at h
        simpa using ih hm j

theorem goIndex_append_some {p xs : List Char} {i : Nat}
    (h : goIndex p xs = some i) (r : List Char) : goIndex p (xs ++ r) = some i := by
  induction xs generalizing i with
  | nil =>
    unfold goIndex at h
    split at h
    · obtain rfl : (0 : Nat) = i := by simpa using h
      cases p with
      | nil => simpa using goIndex_pat_nil r
      | cons c t => simp [listStartsWith] at *
    · simp at h
  | cons a t ih =>
    unfold goIndex at h
    split at h
    · obtain rfl : (0 : Nat) = i := by simpa using h
      have hsw := listStartsWith_mono p (a :: t) r ‹_›
      simp only [List.cons_append] at hsw ⊢
      simp [goIndex, hsw]
    · rename' ‹¬listStartsWith (a :: t) p = true› => hsw
      cases hm : goIndex p t with
      | none => rw [hm] at h; simp at h
      | some j =>
        rw [hm] at h
        simp at h
        subst h
        have hb := goIndex_bound hm
        have hsw2 : ¬listStartsWith ((a :: t) ++ r) p = true := by
          intro hq
          exact hsw (listStartsWith_of_append hq (by simp; omega))
        simp only [List.cons_append] at hsw2 ⊢
        simp [goIndex, hsw2, ih hm]

theorem goIndex_single_none {c : Char} {xs : List Char} (h : c ∉ xs) :
    goIndex [c] xs = none := by
  induction xs with
  | nil => simp [goIndex, listStartsWith]
  | cons a t ih =>
    have hac : (a == c) = false := by
      simp at h
      exact beq_eq_false_iff_ne.mpr (fun q => h.1 q.symm)
    have ht : c ∉ t := by simp at h; exact h.2
    simp [goIndex, listStartsWith, hac, ih ht]

theorem goIndex_single_append {c : Char} {xs : List Char} (h : c ∉ xs)
    (rest : List Char) : goIndex [c] (xs ++ c :: rest) = some xs.length := by
  induction xs with
  | nil => simp [goIndex, listStartsWith]
  | cons a t ih =>
    have hac : (a == c) = false := by
      simp at h
      exact beq_eq_false_iff_ne.mpr (fun q => h.1 q.symm)
    have ht : c ∉ t := by simp at h; exact h.2
    simp [goIndex, listStartsWith, hac, ih ht]

theorem goSplitAux_congr {sep : List Char} (hsep : sep ≠ []) :
    ∀ f1 f2 s, s.length < f1 → s.length < f2 →
      goSplitAux sep f1 s = goSplitAux sep f2 s := by
  intro f1
  induction f1 with
  | zero => intro f2 s h1 _; exact absurd h1 (Nat.not_lt_zero _)
  | succ f1 ih =>
    intro f2 s h1 h2
    cases f2 with
    | zero => exact absurd h2 (Nat.not_lt_zero _)
    | succ f2 =>
      simp only [goSplitAux]
      cases hidx : goIndex sep s with
      | none => rfl
      | some i =>
        have hb := goIndex_bound hidx
        have hsl : 1 ≤ sep.length := by
          cases sep with
          | nil => exact absurd rfl hsep
          | cons _ _ => simp
        have hd : (s.drop (i + sep.length)).length = s.length - (i + sep.length) :=
          List.length_drop _ _
        have hlt1 : (s.drop (i + sep.length)).length < f1 := by omega
        have hlt2 : (s.drop (i + sep.length)).length < f2 := by omega
        exact congrArg (fun l => List.take i s :: l) (ih f2 _ hlt1 hlt2)

theorem goSplit_eq_aux {sep s : List Char} (hsep : sep ≠ []) {f : Nat}
    (hf : s.length < f) : goSplit sep s = goSplitAux sep f s :=
  goSplitAux_congr hsep (s.length + 1) f s (Nat.lt_succ_self _) hf

theorem goSplit_not_mem {c : Char} {xs : List Char} (h : c ∉ xs) :
    goSplit [c] xs = [xs] := by
  unfold goSplit
  simp [goSplitAux, goIndex_single_none h]

theorem goSplit_append {c : Char} {xs : List Char} (h : c ∉ xs) (rest : List Char) :
    goSplit [c] (xs ++ c :: rest) = xs :: goSplit [c] rest := by
  have hd : (xs ++ c :: rest).drop (xs.length + [c].length) = rest := by
    have he : xs ++ c :: rest = (xs ++ [c]) ++ rest := by simp
    rw [he]
    exact List.drop_left' (by simp)
  unfold goSplit
  simp only [goSplitAux, goIndex_single_append h rest]
  rw [List.take_left xs (c :: rest), hd]
  exact congrArg (fun l => xs :: l)
    (goSplitAux_congr (by simp) _ _ rest (by simp; omega) (Nat.lt_succ_self _))

theorem takeWhile_all {p : Char → Bool} :
    ∀ {xs : List Char}, (∀ c ∈ xs, p c = true) → xs.takeWhile p = xs := by
  intro xs
  induction xs with
  | nil => intro _; rfl
  | cons a t ih =>
    intro h
    rw [List.takeWhile_cons, if_pos (h a (by simp)), ih (fun c hc => h c (by simp [hc]))]

theorem dropWhile_all {p : Char → Bool} :
    ∀ {xs : List Char}, (∀ c ∈ xs, p c = true) → xs.dropWhile p = [] := by
  intro xs
  induction xs with
  | nil => intro _; rfl
  | cons a t ih =>
    intro h
    rw [List.dropWhile_cons, if_pos (h a (by simp)), ih (fun c hc => h c (by simp [hc]))]

theorem takeWhile_append_stop {p : Char → Bool} {xs : List Char}
    (h : ∀ c ∈ xs, p c = true) {y : Char} (hy : p y = false) (rest : List Char) :
    (xs ++ y :: rest).takeWhile p = xs := by
  induction xs with
  | nil => rw [List.nil_append, List.takeWhile_cons, if_neg (by simp [hy])]
  | cons a t ih =>
    rw [List.cons_append, List.takeWhile_cons, if_pos (h a (by simp)),
      ih (fun c hc => h c (by simp [hc]))]

theorem dropWhile_append_stop {p : Char → Bool} {xs : List Char}
    (h : ∀ c ∈ xs, p c = true) {y : Char} (hy : p y = false) (rest : List Char) :
    (xs ++ y :: rest).dropWhile p = y :: rest := by
  induction xs with
  | nil => rw [List.nil_append, List.dropWhile_cons, if_neg (by simp [hy])]
  | cons a t ih =>
    rw [List.cons_append, List.dropWhile_cons, if_pos (h a (by simp)),
      ih (fun c hc => h c (by simp [hc]))]

theorem dropWhile_none {p : Char → Bool} {xs : List Char}
    (h : ∀ c ∈ xs, p c = false) : xs.dropWhile p = xs := by
  cases xs with
  | nil => rfl
  | cons a t => rw [List.dropWhile_cons, if_neg (by simp [h a (by simp)])]

theorem goTrimSpace_no_space {xs : List Char}
    (h : ∀ c ∈ xs, goIsSpace c = false) : goTrimSpace xs = xs := by
  unfold goTrimSpace
  rw [dropWhile_none h,
    dropWhile_none (fun c hc => h c (List.mem_reverse.mp hc)),
    List.reverse_reverse]

theorem digitChar_srtDigit : ∀ d, d < 10 → srtDigit (Nat.digitChar d) := by decide

theorem digitChar_toNat : ∀ d, d < 10 → (Nat.digitChar d).toNat = 48 + d := by decide

theorem d2_srtDigit {n : Nat} (h : n < 100) : ∀ c ∈ d2 n, srtDigit c := by
  intro c hc
  have h1 : n / 10 < 10 := by omega
  have h2 : n % 10 < 10 := by omega
  simp only [d2, List.mem_cons, List.not_mem_nil, or_false] at hc
  rcases hc with rfl | rfl
  exacts [digitChar_srtDigit _ h1, digitChar_srtDigit _ h2]

theorem d3_srtDigit {n : Nat} (h : n < 1000) : ∀ c ∈ d3 n, srtDigit c := by
  intro c hc
  have h1 : n / 100 < 10 := by omega
  have h2 : n / 10 % 10 < 10 := by omega
  have h3 : n % 10 < 10 := by omega
  simp only [d3, List.mem_cons, List.not_mem_nil, or_false] at hc
  rcases hc with rfl | rfl | rfl
  exacts [digitChar_srtDigit _ h1, digitChar_srtDigit _ h2, digitChar_srtDigit _ h3]

theorem digitsToNat_d2 {n : Nat} (h : n < 100) : digitsToNat (d2 n) = n := by
  have h1 : n / 10 < 10 := by omega
  have h2 : n % 10 < 10 := by omega
  simp only [digitsToNat, d2, List.foldl, digitChar_toNat _ h1, digitChar_toNat _ h2]
  omega

theorem digitsToNat_d3 {n : Nat} (h : n < 1000) : digitsToNat (d3 n) = n := by
  have h1 : n / 100 < 10 := by omega
  have h2 : n / 10 % 10 < 10 := by omega
  have h3 : n % 10 < 10 := by omega
  simp only [digitsToNat, d3, List.foldl, digitChar_toNat _ h1, digitChar_toNat _ h2,
    digitChar_toNat _ h3]
  omega

theorem parseFloat_digits {ip : List Char} (hne : ip ≠ [])
    (h : ∀ c ∈ ip, srtDigit c) : parseFloat ip = (digitsToNat ip : ℚ) := by
  obtain ⟨c0, ip', rfl⟩ : ∃ c0 ip', ip = c0 :: ip' := by
    cases ip with
    | nil => exact absurd rfl hne
    | cons a t => exact ⟨a, t, rfl⟩
  obtain ⟨hd0, hs0, hm0, hp0, _, _, _⟩ := h c0 (by simp)
  have hdig : ∀ c ∈ c0 :: ip', Char.isDigit c = true := fun c hc => (h c hc).1
  have hdig' : ∀ c ∈ ip', Char.isDigit c = true := fun c hc => hdig c (by simp [hc])
  have hbm : (c0 == '-') = false := beq_eq_false_iff_ne.mpr hm0
  have hbp : (c0 == '+') = false := beq_eq_false_iff_ne.mpr hp0
  simp only [parseFloat, List.dropWhile_cons, hs0, Bool.false_eq_true, if_false,
    List.headD_cons, hbm, hbp, Bool.or_self, Bool.false_or]
  rw [takeWhile_all hdig]
  simp only [hd0, if_true, dropWhile_all hdig', List.headD_nil]
  simp [digitsToNat]

theorem parseFloat_digits_frac {ip fp : List Char} (hne : ip ≠ [])
    (h1 : ∀ c ∈ ip, srtDigit c) (h2 : ∀ c ∈ fp, srtDigit c) :
    parseFloat (ip ++ '.' :: fp) =
      (digitsToNat ip : ℚ) + (digitsToNat fp : ℚ) / (10 : ℚ) ^ fp.length := by
  obtain ⟨c0, ip', rfl⟩ : ∃ c0 ip', ip = c0 :: ip' := by
    cases ip with
    | nil => exact absurd rfl hne
    | cons a t => exact ⟨a, t, rfl⟩
  obtain ⟨hd0, hs0, hm0, hp0, _, _, _⟩ := h1 c0 (by simp)
  have hdig : ∀ c ∈ ip', Char.isDigit c = true := fun c hc => (h1 c (by simp [hc])).1
  have hdig2 : ∀ c ∈ fp, Char.isDigit c = true := fun c hc => (h2 c hc).1
  have hbm : (c0 == '-') = false := beq_eq_false_iff_ne.mpr hm0
  have hbp : (c0 == '+') = false := beq_eq_false_iff_ne.mpr hp0
  have he : (c0 :: ip') ++ '.' :: fp = c0 :: (ip' ++ '.' :: fp) := by simp
  rw [he]
  simp only [parseFloat, List.dropWhile_cons, hs0, Bool.false_eq_true, if_false,
    List.headD_cons, hbm, hbp, Bool.or_self, Bool.false_or]
  rw [List.takeWhile_cons, if_pos hd0,
    takeWhile_append_stop hdig (show Char.isDigit '.' = false by decide) fp]
  simp only [hd0, if_true,
    dropWhile_append_stop hdig (show Char.isDigit '.' = false by decide) fp,
    List.headD_cons, List.tail_cons]
  simp only [beq_self_eq_true, if_true, takeWhile_all hdig2]
  simp

theorem goReplace1_some {s old new : List Char} {i : Nat}
    (h : goIndex old s = some i) :
    goReplace1 s old new = s.take i ++ new ++ s.drop (i + old.length) := by
  unfold goReplace1
  rw [h]

theorem parseSRTTime_hhmmss {hh mm ss ms : Nat} (h1 : hh < 100) (h2 : mm < 100)
    (h3 : ss < 100) (h4 : ms < 1000) :
    parseSRTTime (srtTimeString hh mm ss ms) =
      (hh : ℚ) * 3600 + (mm : ℚ) * 60 + (ss : ℚ) + (ms : ℚ) / 1000 := by
  have hd2h := d2_srtDigit h1
  have hd2m := d2_srtDigit h2
  have hd2s := d2_srtDigit h3
  have hd3 := d3_srtDigit h4
  have hA : ',' ∉ d2 hh ++ ':' :: (d2 mm ++ ':' :: d2 ss) := by
    intro hc
    simp only [List.mem_append, List.mem_cons] at hc
    rcases hc with h | h | h | h | h
    all_goals first
      | exact absurd h (by decide)
      | exact (hd2h _ h).2.2.2.2.2.2 rfl
      | exact (hd2m _ h).2.2.2.2.2.2 rfl
      | exact (hd2s _ h).2.2.2.2.2.2 rfl
  have harr : srtTimeString hh mm ss ms =
      (d2 hh ++ ':' :: (d2 mm ++ ':' :: d2 ss)) ++ ',' :: d3 ms := by
    simp [srtTimeString]
  have hrepl : goReplace1 (srtTimeString hh mm ss ms) [','] ['.'] =
      (d2 hh ++ ':' :: (d2 mm ++ ':' :: d2 ss)) ++ '.' :: d3 ms := by
    rw [harr, goReplace1_some (goIndex_single_append hA (d3 ms))]
    rw [List.take_left _ (',' :: d3 ms)]
    have he : (d2 hh ++ ':' :: (d2 mm ++ ':' :: d2 ss)) ++ ',' :: d3 ms =
        ((d2 hh ++ ':' :: (d2 mm ++ ':' :: d2 ss)) ++ [',']) ++ d3 ms := by simp
    rw [he, List.drop_left' (by simp; omega)]
    simp
  have hnc1 : ':' ∉ d2 hh := fun hc => (hd2h _ hc).2.2.2.2.2.1 rfl
  have hnc2 : ':' ∉ d2 mm := fun hc => (hd2m _ hc).2.2.2.2.2.1 rfl
  have hnc3 : ':' ∉ d2 ss ++ '.' :: d3 ms := by
    intro hc
    simp only [List.mem_append, List.mem_cons] at hc
    rcases hc with h | h | h
    all_goals first
      | exact absurd h (by decide)
      | exact (hd2s _ h).2.2.2.2.2.1 rfl
      | exact (hd3 _ h).2.2.2.2.2.1 rfl
  have hsplit : goSplit [':']
      ((d2 hh ++ ':' :: (d2 mm ++ ':' :: d2 ss)) ++ '.' :: d3 ms) =
      [d2 hh, d2 mm, d2 ss ++ '.' :: d3 ms] := by
    have he : (d2 hh ++ ':' :: (d2 mm ++ ':' :: d2 ss)) ++ '.' :: d3 ms =
        d2 hh ++ ':' :: (d2 mm ++ ':' :: (d2 ss ++ '.' :: d3 ms)) := by simp
    rw [he, goSplit_append hnc1, goSplit_append hnc2, goSplit_not_mem hnc3]
  have hns1 : goTrimSpace (d2 hh) = d2 hh :=
    goTrimSpace_no_space (fun c hc => (hd2h c hc).2.1)
  have hns2 : goTrimSpace (d2 mm) = d2 mm :=
    goTrimSpace_no_space (fun c hc => (hd2m c hc).2.1)
  have hns3 : goTrimSpace (d2 ss ++ '.' :: d3 ms) = d2 ss ++ '.' :: d3 ms := by
    apply goTrimSpace_no_space
    intro c hc
    simp only [List.mem_append, List.mem_cons] at hc
    rcases hc with h | h | h
    · exact (hd2s _ h).2.1
    · subst h; decide
    · exact (hd3 _ h).2.1
  have hd2ne : ∀ n : Nat, d2 n ≠ [] := fun n => by simp [d2]
  simp only [parseSRTTime, hrepl, hsplit]
  rw [hns1, hns2, hns3]
  rw [parseFloat_digits (hd2ne hh) hd2h, parseFloat_digits (hd2ne mm) hd2m,
    parseFloat_digits_frac (hd2ne ss) hd2s hd3]
  rw [digitsToNat_d2 h1, digitsToNat_d2 h2, digitsToNat_d2 h3, digitsToNat_d3 h4]
  have hlen : (d3 ms).length = 3 := by simp [d3]
  rw [hlen]
  norm_num
  ring

theorem parseBlock_eq (b : List Char) :
    parseBlock b = if specWellFormedBlock b then some (blockToSeg b) else none := by
  unfold parseBlock specWellFormedBlock blockToSeg
  cases hl : goSplit ['\n'] (goTrimSpace b) with
  | nil => simp
  | cons l0 t0 =>
    cases t0 with
    | nil => simp
    | cons l1 t1 =>
      cases t1 with
      | nil => simp
      | cons l2 rest =>
        cases hp : goSplit (" --> ".data) l1 with
        | nil => simp [hp]
        | cons a ta =>
          cases ta with
          | nil => simp [hp]
          | cons b2 tb =>
            cases tb with
            | nil => simp [hp]
            | cons c tc => simp [hp]

theorem parseSRT_eq (s : List Char) :
    parseSRT s = ((srtBlocks s).filter specWellFormedBlock).map blockToSeg := by
  unfold parseSRT
  induction srtBlocks s with
  | nil => rfl
  | cons b t ih =>
    rw [List.filterMap_cons, List.filter_cons, parseBlock_eq b]
    cases hb : specWellFormedBlock b with
    | false => simpa [hb] using ih
    | true => simp [hb, ih]

theorem parseSRT_length (s : List Char) :
    (parseSRT s).length = countWellFormedBlocks s := by
  rw [parseSRT_eq]
  simp [countWellFormedBlocks, List.countP_eq_length_filter]

theorem parseSRTTime_not_three {t : List Char}
    (h : (goSplit [':'] (goReplace1 t [','] ['.'])).length ≠ 3) :
    parseSRTTime t = 0 := by
  simp only [parseSRTTime]
  split
  · rename_i p0 p1 p2 heq
    exfalso
    apply h
    rw [heq]
    rfl
  · rfl

theorem listStartsWith_append_drop {p q : List Char} :
    ∀ {s : List Char}, listStartsWith s (p ++ q) = true →
      listStartsWith (s.drop p.length) q = true := by
  induction p with
  | nil => intro s h; simpa using h
  | cons c t ih =>
    intro s h
    cases s with
    | nil => simp [listStartsWith] at h
    | cons a s' =>
      simp only [List.cons_append, listStartsWith, Bool.and_eq_true] at h
      simpa using ih h.2

theorem listStartsWith_append_left {p q : List Char} :
    ∀ {s : List Char}, listStartsWith s (p ++ q) = true →
      listStartsWith s p = true := by
  induction p with
  | nil => intro s _; exact listStartsWith_pat_nil s
  | cons c t ih =>
    intro s h
    cases s with
    | nil => simp [listStartsWith] at h
    | cons a s' =>
      simp only [List.cons_append, listStartsWith, Bool.and_eq_true] at h ⊢
      exact ⟨h.1, ih h.2⟩

theorem replaceMIMEField_id_of_field_absent {body : List Char}
    {ct field newValue : String} (h : goIndex field.data body = none) :
    replaceMIMEField body ct field newValue = body := by
  have hocc := goIndex_none_startsWith h
  cases hq : goIndex (fieldMarker field) body with
  | none => simp only [replaceMIMEField, hq]
  | some i =>
    exfalso
    have hsw : listStartsWith (body.drop i) (fieldMarker field) = true :=
      goIndex_some_startsWith hq
    have hfm : fieldMarker field = (("name=").data ++ ['"']) ++ (field.data ++ ['"']) := by
      simp [fieldMarker]
    rw [hfm] at hsw
    have hsw2 := listStartsWith_append_drop hsw
    have hsw3 := listStartsWith_append_left hsw2
    rw [List.drop_drop] at hsw3
    exact absurd hsw3 (by simp [hocc])

theorem replaceMIMEField_first_match
    (pre mid value post : List Char) (ct field newValue : String)
    (h1 : goIndex (fieldMarker field)
        (pre ++ fieldMarker field ++ (mid ++ crlf2 ++ (value ++ crlf ++ post))) =
        some pre.length)
    (h2 : goIndex crlf2 (mid ++ crlf2 ++ (value ++ crlf ++ post)) = some mid.length)
    (h3 : goIndex crlf (value ++ crlf ++ post) = some value.length) :
    replaceMIMEField
        (pre ++ fieldMarker field ++ (mid ++ crlf2 ++ (value ++ crlf ++ post)))
        ct field newValue =
      pre ++ fieldMarker field ++ (mid ++ crlf2 ++ (newValue.data ++ crlf ++ post)) := by
  have e1 : (pre ++ fieldMarker field ++ (mid ++ crlf2 ++ (value ++ crlf ++ post))).drop
      (pre.length + (fieldMarker field).length) = mid ++ crlf2 ++ (value ++ crlf ++ post) :=
    List.drop_left' (by simp)
  have e2 : (pre ++ fieldMarker field ++ (mid ++ crlf2 ++ (value ++ crlf ++ post))).drop
      (pre.length + (fieldMarker field).length + mid.length + 4) =
      value ++ crlf ++ post := by
    have ha : pre ++ fieldMarker field ++ (mid ++ crlf2 ++ (value ++ crlf ++ post)) =
        (pre ++ fieldMarker field ++ mid ++ crlf2) ++ (value ++ crlf ++ post) := by
      simp [List.append_assoc]
    rw [ha]
    exact List.drop_left' (by simp [crlf2, crlf]; omega)
  have e3 : (pre ++ fieldMarker field ++ (mid ++ crlf2 ++ (value ++ crlf ++ post))).take
      (pre.length + (fieldMarker field).length + mid.length + 4) =
      pre ++ fieldMarker field ++ mid ++ crlf2 := by
    have ha : pre ++ fieldMarker field ++ (mid ++ crlf2 ++ (value ++ crlf ++ post)) =
        (pre ++ fieldMarker field ++ mid ++ crlf2) ++ (value ++ crlf ++ post) := by
      simp [List.append_assoc]
    rw [ha]
    exact List.take_left' (by simp [crlf2, crlf]; omega)
  have e4 : (pre ++ fieldMarker field ++ (mid ++ crlf2 ++ (value ++ crlf ++ post))).drop
      (pre.length + (fieldMarker field).length + mid.length + 4 + value.length) =
      crlf ++ post := by
    have ha : pre ++ fieldMarker field ++ (mid ++ crlf2 ++ (value ++ crlf ++ post)) =
        (pre ++ fieldMarker field ++ mid ++ crlf2 ++ value) ++ (crlf ++ post) := by
      simp [List.append_assoc]
    rw [ha]
    exact List.drop_left' (by simp [crlf2, crlf]; omega)
  simp only [replaceMIMEField, h1, e1, h2, e2, h3, e3, e4]
  simp [List.append_assoc]

theorem getKey_setKey_self (m : List (List Char × Jx)) (k : List Char) (v : Jx) :
    getKey (setKey m k v) k = some v := by
  induction m with
  | nil => simp [setKey, getKey]
  | cons p rest ih =>
    obtain ⟨k2, v2⟩ := p
    by_cases hk : k2 = k
    · simp [setKey, getKey, hk]
    · simp [setKey, getKey, hk, ih]

theorem getKey_setKey_ne (m : List (List Char × Jx)) {k k' : List Char} (v : Jx)
    (h : k' ≠ k) : getKey (setKey m k v) k' = getKey m k' := by
  have h2 : ¬k = k' := fun q => h q.symm
  induction m with
  | nil => simp [setKey, getKey, h2]
  | cons p rest ih =>
    obtain ⟨k2, v2⟩ := p
    by_cases hk : k2 = k
    · subst hk
      simp [setKey, getKey, h2]
    · simp only [setKey, if_neg hk, getKey]
      by_cases hk' : k2 = k'
      · simp [hk']
      · simp [hk', ih]

/-! ### Control-flow lemmas for `transcribe` -/

theorem transcribe_json_path {be : Backend} {req : Request} {resp : HttpResponse}
    (hm : req.method = "POST")
    (hp : be.primary req.body = some resp)
    (hfmt : isJSONFormat (extractMultipartField req.body req.contentType "response_format"))
    (hst : resp.status = 200) :
    transcribe be req = handleJSON be req resp := by
  simp [transcribe, hm, hp, hfmt, hst]

theorem transcribe_pass {be : Backend} {req : Request} {resp : HttpResponse}
    (hm : req.method = "POST")
    (hp : be.primary req.body = some resp)
    (hcond : ¬ isJSONFormat (extractMultipartField req.body req.contentType "response_format")
      ∨ resp.status ≠ 200) :
    transcribe be req = ⟨TOut.pass resp, false⟩ := by
  simp only [transcribe, hm, ne_eq, hp]
  rw [if_neg (by simp), if_pos hcond]

theorem handleJSON_parsed {be : Backend} {req : Request} {resp : HttpResponse}
    {obj : List (List Char × Jx)} (hj : parseJsonObj resp.body = some obj) :
    handleJSON be req resp = enrichJSON be req obj := by
  simp only [handleJSON, hj]

theorem enrichJSON_success {be : Backend} {req : Request}
    {obj : List (List Char × Jx)} {sresp : HttpResponse}
    (hs : be.secondary (replaceMIMEField req.body req.contentType "response_format" "srt") =
      some sresp)
    (hsst : sresp.status = 200) (hseg : parseSRT sresp.body ≠ []) :
    enrichJSON be req obj =
      ⟨TOut.ok (setKey obj (("segments").data) (segsToJx (parseSRT sresp.body))), true⟩ := by
  simp [enrichJSON, hs, hsst, hseg]

theorem enrichJSON_noop {be : Backend} {req : Request} {obj : List (List Char × Jx)}
    (hsec : ∀ sr, be.secondary
        (replaceMIMEField req.body req.contentType "response_format" "srt") = some sr →
      sr.status ≠ 200 ∨ parseSRT sr.body = []) :
    enrichJSON be req obj = ⟨TOut.ok obj, true⟩ := by
  cases hs : be.secondary (replaceMIMEField req.body req.contentType "response_format" "srt") with
  | none => simp [enrichJSON, hs]
  | some sr =>
    rcases hsec sr hs with h | h
    · simp [enrichJSON, hs, h]
    · simp [enrichJSON, hs, h]

/-! ### Claims -/

/-- C1: on a Transcribe POST whose `response_format` is absent or "json",
when the primary backend call returns 200 with a valid JSON object and the
secondary SRT call returns 200 with SRT text containing at least one
well-formed block, the proxy responds 200 with a JSON object whose
`segments` key is overwritten with the parsed segments: a non-empty array
with exactly one element per well-formed SRT block, in order. -/
theorem transcribe_json_enriched (be : Backend) (req : Request)
    (resp sresp : HttpResponse) (obj : List (List Char × Jx))
    (hm : req.method = "POST")
    (hfmt : extractMultipartField req.body req.contentType "response_format" = [] ∨
      extractMultipartField req.body req.contentType "response_format" = ("json").data)
    (hp : be.primary req.body = some resp)
    (hst : resp.status = 200)
    (hj : parseJsonObj resp.body = some obj)
    (hs : be.secondary (replaceMIMEField req.body req.contentType "response_format" "srt") =
      some sresp)
    (hsst : sresp.status = 200)
    (hblk : countWellFormedBlocks sresp.body ≠ 0) :
    transcribe be req =
      ⟨TOut.ok (setKey obj (("segments").data) (segsToJx (parseSRT sresp.body))), true⟩ ∧
    (transcribe be req).out.statusOf = 200 ∧
    getKey (setKey obj (("segments").data) (segsToJx (parseSRT sresp.body)))
      (("segments").data) = some (Jx.arr ((parseSRT sresp.body).map segToJx)) ∧
    (parseSRT sresp.body).length = countWellFormedBlocks sresp.body ∧
    parseSRT sresp.body ≠ [] := by
  have hseg : parseSRT sresp.body ≠ [] := by
    intro he
    apply hblk
    rw [← parseSRT_length, he]
    rfl
  have hisj : isJSONFormat (extractMultipartField req.body req.contentType "response_format") := by
    unfold isJSONFormat
    rcases hfmt with h | h <;> simp [h]
  have hmain : transcribe be req =
      ⟨TOut.ok (setKey obj (("segments").data) (segsToJx (parseSRT sresp.body))), true⟩ := by
    rw [transcribe_json_path hm hp hisj hst, handleJSON_parsed hj,
      enrichJSON_success hs hsst hseg]
  refine ⟨hmain, ?_, ?_, parseSRT_length sresp.body, hseg⟩
  · rw [hmain]; rfl
  · exact getKey_setKey_self obj (("segments").data) (segsToJx (parseSRT sresp.body))

/-- C1 witness: the canonical scenario — multipart body requesting json,
backend answering a JSON object and a two-block SRT document. -/
theorem transcribe_json_enriched_witness :
    transcribe wBe wReq =
      ⟨TOut.ok (setKey wObj (("segments").data) (segsToJx (parseSRT wSrt))), true⟩ ∧
    (transcribe wBe wReq).out.statusOf = 200 ∧
    getKey (setKey wObj (("segments").data) (segsToJx (parseSRT wSrt)))
      (("segments").data) = some (Jx.arr ((parseSRT wSrt).map segToJx)) ∧
    (parseSRT wSrt).length = countWellFormedBlocks wSrt ∧
    parseSRT wSrt ≠ [] :=
  transcribe_json_enriched wBe wReq ⟨200, [], wJson⟩ ⟨200, [], wSrt⟩ wObj rfl
    (Or.inr (by decide)) rfl rfl rfl rfl rfl (by decide)

/-- C3: when the extracted `response_format` is non-empty and not "json",
or the primary call returns any non-200 status, the proxy forwards the
backend response exactly (status, headers, body) and never attempts the
secondary SRT call. -/
theorem transcribe_passthrough (be : Backend) (req : Request) (resp : HttpResponse)
    (hm : req.method = "POST")
    (hp : be.primary req.body = some resp)
    (hcond : (extractMultipartField req.body req.contentType "response_format" ≠ [] ∧
        extractMultipartField req.body req.contentType "response_format" ≠ ("json").data) ∨
      resp.status ≠ 200) :
    transcribe be req = ⟨TOut.pass resp, false⟩ ∧
    (transcribe be req).out.statusOf = resp.status ∧
    (transcribe be req).srtCalled = false := by
  have hmain : transcribe be req = ⟨TOut.pass resp, false⟩ := by
    apply transcribe_pass hm hp
    rcases hcond with h | h
    · exact Or.inl (fun hq => hq h)
    · exact Or.inr h
  exact ⟨hmain, by rw [hmain]; rfl, by rw [hmain]⟩

/-- C3 witness: the backend answers 503; the proxy passes the status, the
headers and the exact body through and makes no SRT call. -/
theorem transcribe_passthrough_witness :
    transcribe wBe503 wReq =
      ⟨TOut.pass ⟨503, [("Content-Type", ["application/json"])],
        ("\x7b\"error\": \"model not loaded\"\x7d").data⟩, false⟩ ∧
    (transcribe wBe503 wReq).out.statusOf = 503 ∧
    (transcribe wBe503 wReq).srtCalled = false :=
  transcribe_passthrough wBe503 wReq
    ⟨503, [("Content-Type", ["application/json"])],
      ("\x7b\"error\": \"model not loaded\"\x7d").data⟩
    rfl rfl (Or.inr (by decide))

/-- C4: on the JSON path with a parsed primary object, if the secondary SRT
call cannot be made, fails, returns non-200, or parses to zero segments,
the proxy still answers 200 with the unchanged primary object — the
enrichment failure is never surfaced. -/
theorem transcribe_enrichment_failure (be : Backend) (req : Request)
    (resp : HttpResponse) (obj : List (List Char × Jx))
    (hm : req.method = "POST")
    (hfmt : extractMultipartField req.body req.contentType "response_format" = [] ∨
      extractMultipartField req.body req.contentType "response_format" = ("json").data)
    (hp : be.primary req.body = some resp)
    (hst : resp.status = 200)
    (hj : parseJsonObj resp.body = some obj)
    (hsec : ∀ sr, be.secondary
        (replaceMIMEField req.body req.contentType "response_format" "srt") = some sr →
      sr.status ≠ 200 ∨ parseSRT sr.body = []) :
    (transcribe be req).out = TOut.ok obj ∧
    (transcribe be req).out.statusOf = 200 := by
  have hisj : isJSONFormat (extractMultipartField req.body req.contentType "response_format") := by
    unfold isJSONFormat
    rcases hfmt with h | h <;> simp [h]
  have hmain : transcribe be req = ⟨TOut.ok obj, true⟩ := by
    rw [transcribe_json_path hm hp hisj hst, handleJSON_parsed hj, enrichJSON_noop hsec]
  exact ⟨by rw [hmain], by rw [hmain]; rfl⟩

/-- C4 witness: the secondary call fails at the transport level; the client
still gets 200 with the primary object, no segments key added. -/
theorem transcribe_enrichment_failure_witness :
    (transcribe wBeNoSrt wReq).out = TOut.ok wObj ∧
    (transcribe wBeNoSrt wReq).out.statusOf = 200 :=
  transcribe_enrichment_failure wBeNoSrt wReq ⟨200, [], wJson⟩ wObj rfl
    (Or.inr (by decide)) rfl rfl rfl (fun sr h => by simp [wBeNoSrt] at h)

/-- C9: on the enrichment path (JSON requested, primary 200 with a valid
object), every top-level key other than `segments` keeps exactly its parsed
value in the object the proxy sends back. -/
theorem transcribe_preserves_other_fields (be : Backend) (req : Request)
    (resp : HttpResponse) (obj : List (List Char × Jx))
    (hm : req.method = "POST")
    (hfmt : extractMultipartField req.body req.contentType "response_format" = [] ∨
      extractMultipartField req.body req.contentType "response_format" = ("json").data)
    (hp : be.primary req.body = some resp)
    (hst : resp.status = 200)
    (hj : parseJsonObj resp.body = some obj) :
    ∃ obj2, (transcribe be req).out = TOut.ok obj2 ∧
      ∀ k, k ≠ ("segments").data → getKey obj2 k = getKey obj k := by
  have hisj : isJSONFormat (extractMultipartField req.body req.contentType "response_format") := by
    unfold isJSONFormat
    rcases hfmt with h | h <;> simp [h]
  rw [transcribe_json_path hm hp hisj hst, handleJSON_parsed hj]
  cases hs : be.secondary (replaceMIMEField req.body req.contentType "response_format" "srt") with
  | none =>
    refine ⟨obj, ?_, fun k _ => rfl⟩
    simp [enrichJSON, hs]
  | some sr =>
    by_cases hst2 : sr.status = 200
    · by_cases hseg : parseSRT sr.body = []
      · refine ⟨obj, ?_, fun k _ => rfl⟩
        simp [enrichJSON, hs, hst2, hseg]
      · refine ⟨setKey obj (("segments").data) (segsToJx (parseSRT sr.body)), ?_, ?_⟩
        · simp [enrichJSON, hs, hst2, hseg]
        · intro k hk
          exact getKey_setKey_ne obj (segsToJx (parseSRT sr.body)) hk
    · refine ⟨obj, ?_, fun k _ => rfl⟩
      simp [enrichJSON, hs, hst2]

/-- C9 witness: in the canonical enriched scenario the `text` and `lang`
keys keep their parsed values. -/
theorem transcribe_preserves_other_fields_witness :
    ∃ obj2, (transcribe wBe wReq).out = TOut.ok obj2 ∧
      ∀ k, k ≠ ("segments").data → getKey obj2 k = getKey wObj k :=
  transcribe_preserves_other_fields wBe wReq ⟨200, [], wJson⟩ wObj rfl
    (Or.inr (by decide)) rfl rfl rfl

/-- C10: Health reports healthy exactly when the GET to the backend's
/v1/models endpoint yields any HTTP response — a 500 reply is still
healthy — and reports an error exactly when the GET itself fails. -/
theorem health_spec :
    (∀ gr : Option HttpResponse, health gr = none ↔ gr ≠ none) ∧
    health (some ⟨500, [], []⟩) = none := by
  constructor
  · intro gr
    cases gr <;> simp [health]
  · rfl

/-- C7: parseSRT of the empty string is empty; the two-block example parses
to exactly its two segments; and on every input the malformed blocks (fewer
than 3 lines or no " --> " separator on the second line) are skipped without
error, leaving exactly one segment per well-formed block, in order. -/
theorem parseSRT_spec :
    parseSRT (("").data) = [] ∧
    parseSRT (("1\n00:00:00,000 --> 00:00:01,500\nhello\n\n2\n00:00:01,500 --> 00:00:03,000\nworld\n").data) =
      [⟨0, 1.5, ("hello").data⟩, ⟨1.5, 3, ("world").data⟩] ∧
    (∀ s, parseSRT s = ((srtBlocks s).filter specWellFormedBlock).map blockToSeg) ∧
    (∀ s, (parseSRT s).length = countWellFormedBlocks s) := by
  have t0 : parseSRTTime (("00:00:00,000").data) = 0 := by
    have e : ("00:00:00,000").data = srtTimeString 0 0 0 0 := by decide
    rw [e, parseSRTTime_hhmmss (by norm_num) (by norm_num) (by norm_num) (by norm_num)]
    norm_num
  have t15 : parseSRTTime (("00:00:01,500").data) = 1.5 := by
    have e : ("00:00:01,500").data = srtTimeString 0 0 1 500 := by decide
    rw [e, parseSRTTime_hhmmss (by norm_num) (by norm_num) (by norm_num) (by norm_num)]
    norm_num
  have t3 : parseSRTTime (("00:00:03,000").data) = 3 := by
    have e : ("00:00:03,000").data = srtTimeString 0 0 3 0 := by decide
    rw [e, parseSRTTime_hhmmss (by norm_num) (by norm_num) (by norm_num) (by norm_num)]
    norm_num
  refine ⟨rfl, ?_, parseSRT_eq, parseSRT_length⟩
  have hsh : parseSRT (("1\n00:00:00,000 --> 00:00:01,500\nhello\n\n2\n00:00:01,500 --> 00:00:03,000\nworld\n").data) =
      [⟨parseSRTTime (("00:00:00,000").data), parseSRTTime (("00:00:01,500").data), ("hello").data⟩,
       ⟨parseSRTTime (("00:00:01,500").data), parseSRTTime (("00:00:03,000").data), ("world").data⟩] := by
    rfl
  rw [hsh, t0, t15, t3]

/-- C8 counterexample: "1:2:3" is not of the "HH:MM:SS,mmm" shape, yet
parseSRTTime returns 3723 rather than 0 — the claim that every malformed
timestamp yields 0 fails on the code's best-effort parsing. -/
theorem parseSRTTime_malformed_nonzero :
    parseSRTTime (("1:2:3").data) = 3723 ∧ (3723 : ℚ) ≠ 0 := by
  constructor
  · have e : goReplace1 (("1:2:3").data) [','] ['.'] = ("1:2:3").data := by
      unfold goReplace1
      rw [goIndex_single_none (by decide)]
    have hsp : goSplit [':'] (("1:2:3").data) = [['1'], ['2'], ['3']] := by decide
    have g : ∀ c : Char, srtDigit c → parseFloat (goTrimSpace [c]) = ((c.toNat - 48 : Nat) : ℚ) := by
      intro c hc
      rw [goTrimSpace_no_space (by intro x hx; simp at hx; subst hx; exact hc.2.1),
        parseFloat_digits (by simp) (by intro x hx; simp at hx; subst hx; exact hc)]
      simp [digitsToNat]
    simp only [parseSRTTime, e, hsp]
    rw [g '1' (by decide), g '2' (by decide), g '3' (by decide)]
    rw [show ('1'.toNat - 48 : Nat) = 1 from by decide,
      show ('2'.toNat - 48 : Nat) = 2 from by decide,
      show ('3'.toNat - 48 : Nat) = 3 from by decide]
    norm_num
  · norm_num

/-- C8 (amended): for well-formed "HH:MM:SS,mmm" timestamps the result is
HH*3600 + MM*60 + SS + mmm/1000 exactly; "01:23:45,678" gives 5025.678 and
"invalid" gives 0; parsing is total (malformed input never errors) and any
input that does not split into exactly three colon-separated components
yields 0 — but a malformed three-component input may yield a nonzero
best-effort value. -/
theorem parseSRTTime_spec :
    (∀ hh mm ss ms : Nat, hh < 100 → mm < 100 → ss < 100 → ms < 1000 →
      parseSRTTime (srtTimeString hh mm ss ms) =
        (hh : ℚ) * 3600 + (mm : ℚ) * 60 + (ss : ℚ) + (ms : ℚ) / 1000) ∧
    parseSRTTime (("01:23:45,678").data) = 5025.678 ∧
    parseSRTTime (("invalid").data) = 0 ∧
    (∀ t, (goSplit [':'] (goReplace1 t [','] ['.'])).length ≠ 3 →
      parseSRTTime t = 0) := by
  refine ⟨fun hh mm ss ms h1 h2 h3 h4 => parseSRTTime_hhmmss h1 h2 h3 h4, ?_, ?_, ?_⟩
  · have e : ("01:23:45,678").data = srtTimeString 1 23 45 678 := by decide
    rw [e, parseSRTTime_hhmmss (by norm_num) (by norm_num) (by norm_num) (by norm_num)]
    norm_num
  · exact parseSRTTime_not_three (by decide)
  · exact fun t h => parseSRTTime_not_three h

/-- C8 witness: the general formula applied at 01:23:45,678 and the
three-component condition applied to a colon-free string. -/
theorem parseSRTTime_spec_witness :
    parseSRTTime (srtTimeString 1 23 45 678) =
      (1 : ℚ) * 3600 + (23 : ℚ) * 60 + (45 : ℚ) + (678 : ℚ) / 1000 ∧
    parseSRTTime (("nocolons").data) = 0 :=
  ⟨parseSRTTime_spec.1 1 23 45 678 (by norm_num) (by norm_num) (by norm_num)
      (by norm_num),
    parseSRTTime_spec.2.2.2 (("nocolons").data) (by decide)⟩

/-- C6 witness: a body without any `response_format` occurrence is returned
byte-identically. -/
theorem replaceMIMEField_id_witness :
    goIndex (("response_format").data)
      (("--b\r\nContent-Disposition: form-data; name=\"language\"\r\n\r\nen\r\n--b--\r\n").data) = none ∧
    replaceMIMEField
      (("--b\r\nContent-Disposition: form-data; name=\"language\"\r\n\r\nen\r\n--b--\r\n").data)
      "multipart/form-data; boundary=b" "response_format" "srt" =
      (("--b\r\nContent-Disposition: form-data; name=\"language\"\r\n\r\nen\r\n--b--\r\n").data) :=
  ⟨by decide, replaceMIMEField_id_of_field_absent (by decide)⟩

/-- C2 counterexample: on `cexBody` the find-and-replace matches the marker
bytes inside the audio payload: the file part's bytes change while the
declared `response_format` field keeps its old value — refuting "locates
the field by its declared multipart name" and "the audio file part's bytes
are byte-identical". -/
theorem replaceMIMEField_rewrites_audio_payload :
    getFilePartContent (replaceMIMEField cexBody cexCT "response_format" "srt") cexCT ≠
      getFilePartContent cexBody cexCT ∧
    extractMultipartField (replaceMIMEField cexBody cexCT "response_format" "srt")
      cexCT "response_format" = ("json").data := by
  constructor
  · decide
  · decide

/-- C2 (amended): replaceMIMEField performs a textual search for the FIRST
occurrence of `name="<field>"` anywhere in the raw body; when that first
occurrence is the field's own header (and the following "\r\n\r\n" and
"\r\n" are the genuine header and value terminators), the output differs
from the input only in the value bytes and every other byte — including
every other part — is unchanged; an earlier occurrence of the marker bytes
(e.g. inside the audio payload) is matched and rewritten instead. -/
theorem replaceMIMEField_local_replacement
    (pre mid value post : List Char) (ct field newValue : String)
    (h1 : goIndex (fieldMarker field)
        (pre ++ fieldMarker field ++ (mid ++ crlf2 ++ (value ++ crlf ++ post))) =
        some pre.length)
    (h2 : goIndex crlf2 (mid ++ crlf2 ++ (value ++ crlf ++ post)) = some mid.length)
    (h3 : goIndex crlf (value ++ crlf ++ post) = some value.length) :
    replaceMIMEField
        (pre ++ fieldMarker field ++ (mid ++ crlf2 ++ (value ++ crlf ++ post)))
        ct field newValue =
      pre ++ fieldMarker field ++ (mid ++ crlf2 ++ (newValue.data ++ crlf ++ post)) :=
  replaceMIMEField_first_match pre mid value post ct field newValue h1 h2 h3

/-- C2 witness: the canonical body split at its `response_format` field; the
replacement changes exactly the value bytes. -/
theorem replaceMIMEField_local_replacement_witness :
    replaceMIMEField
        ((("--b\r\nContent-Disposition: form-data; ").data ++ fieldMarker "response_format" ++
          ([] ++ crlf2 ++ (("json").data ++ crlf ++ (("--b--\r\n").data)))) )
        "multipart/form-data; boundary=b" "response_format" "srt" =
      (("--b\r\nContent-Disposition: form-data; ").data ++ fieldMarker "response_format" ++
        ([] ++ crlf2 ++ (("srt").data ++ crlf ++ (("--b--\r\n").data)))) :=
  replaceMIMEField_local_replacement (("--b\r\nContent-Disposition: form-data; ").data)
    [] (("json").data) (("--b--\r\n").data) "multipart/form-data; boundary=b"
    "response_format" "srt" (by decide) (by decide) (by decide)

theorem mpSplitAux_congr {dashB : List Char} :
    ∀ f1 f2 rem, rem.length < f1 → rem.length < f2 →
      mpSplitAux dashB f1 rem = mpSplitAux dashB f2 rem := by
  intro f1
  induction f1 with
  | zero => intro f2 rem h1 _; exact absurd h1 (Nat.not_lt_zero _)
  | succ f1 ih =>
    intro f2 rem h1 h2
    cases f2 with
    | zero => exact absurd h2 (Nat.not_lt_zero _)
    | succ f2 =>
      simp only [mpSplitAux]
      cases hidx : goIndex (crlf ++ dashB) rem with
      | none => rfl
      | some i =>
        have hb := goIndex_bound hidx
        have hcl : (crlf ++ dashB).length = 2 + dashB.length := by simp [crlf]; omega
        rw [hcl] at hb
        have hd : ((rem.drop (i + 2 + dashB.length)).drop 2).length =
            rem.length - (i + 2 + dashB.length) - 2 := by simp; omega
        have hlt1 : ((rem.drop (i + 2 + dashB.length)).drop 2).length < f1 := by omega
        have hlt2 : ((rem.drop (i + 2 + dashB.length)).drop 2).length < f2 := by omega
        exact congrArg
          (fun r =>
            if listStartsWith (rem.drop (i + 2 + dashB.length)) ('-' :: '-' :: []) then
              some [rem.take i]
            else if listStartsWith (rem.drop (i + 2 + dashB.length)) crlf then
              Option.map (fun ps => rem.take i :: ps) r
            else none)
          (ih f2 _ hlt1 hlt2)

theorem mpSplitAux_two {dashB P1 P2 tail1 : List Char} {f : Nat}
    (hf : (P1 ++ (crlf ++ dashB) ++
      (crlf ++ (P2 ++ ((crlf ++ dashB) ++ ('-' :: '-' :: tail1))))).length < f)
    (h1 : goIndex (crlf ++ dashB) (P1 ++ (crlf ++ dashB) ++
      (crlf ++ (P2 ++ ((crlf ++ dashB) ++ ('-' :: '-' :: tail1))))) = some P1.length)
    (h2 : goIndex (crlf ++ dashB) (P2 ++ ((crlf ++ dashB) ++ ('-' :: '-' :: tail1))) =
      some P2.length) :
    mpSplitAux dashB f (P1 ++ (crlf ++ dashB) ++
      (crlf ++ (P2 ++ ((crlf ++ dashB) ++ ('-' :: '-' :: tail1))))) = some [P1, P2] := by
  cases f with
  | zero => exact absurd hf (Nat.not_lt_zero _)
  | succ f =>
    simp only [mpSplitAux, h1]
    have e1 : (P1 ++ (crlf ++ dashB) ++
        (crlf ++ (P2 ++ ((crlf ++ dashB) ++ ('-' :: '-' :: tail1))))).drop
        (P1.length + 2 + dashB.length) =
        crlf ++ (P2 ++ ((crlf ++ dashB) ++ ('-' :: '-' :: tail1))) :=
      List.drop_left' (by simp [crlf]; omega)
    have e2 : (P1 ++ (crlf ++ dashB) ++
        (crlf ++ (P2 ++ ((crlf ++ dashB) ++ ('-' :: '-' :: tail1))))).take P1.length = P1 := by
      rw [List.append_assoc]
      exact List.take_left' rfl
    rw [e1, e2]
    have hsw1 : listStartsWith
        (crlf ++ (P2 ++ ((crlf ++ dashB) ++ ('-' :: '-' :: tail1)))) ('-' :: '-' :: []) = false := by
      simp [crlf, listStartsWith]
    have hsw2 : listStartsWith
        (crlf ++ (P2 ++ ((crlf ++ dashB) ++ ('-' :: '-' :: tail1)))) crlf = true :=
      listStartsWith_append_self crlf _
    rw [if_neg (by rw [hsw1]; simp), if_pos hsw2]
    have e3 : (crlf ++ (P2 ++ ((crlf ++ dashB) ++ ('-' :: '-' :: tail1)))).drop 2 =
        P2 ++ ((crlf ++ dashB) ++ ('-' :: '-' :: tail1)) :=
      List.drop_left' (by simp [crlf])
    rw [e3]
    have hcongr : mpSplitAux dashB f (P2 ++ ((crlf ++ dashB) ++ ('-' :: '-' :: tail1))) =
        mpSplitAux dashB ((P2 ++ ((crlf ++ dashB) ++ ('-' :: '-' :: tail1))).length + 1)
          (P2 ++ ((crlf ++ dashB) ++ ('-' :: '-' :: tail1))) := by
      apply mpSplitAux_congr
      · simp only [List.length_append, List.length_cons] at hf ⊢
        simp [crlf] at hf ⊢
        omega
      · exact Nat.lt_succ_self _
    rw [hcongr]
    simp only [mpSplitAux, h2]
    have e4 : (P2 ++ ((crlf ++ dashB) ++ ('-' :: '-' :: tail1))).drop
        (P2.length + 2 + dashB.length) = '-' :: '-' :: tail1 := by
      have ha : P2 ++ ((crlf ++ dashB) ++ ('-' :: '-' :: tail1)) =
          (P2 ++ (crlf ++ dashB)) ++ ('-' :: '-' :: tail1) := by simp [List.append_assoc]
      rw [ha]
      exact List.drop_left' (by simp [crlf]; omega)
    have e5 : (P2 ++ ((crlf ++ dashB) ++ ('-' :: '-' :: tail1))).take P2.length = P2 :=
      List.take_left' rfl
    rw [e4, e5, if_pos (by simp [listStartsWith])]
    rfl

theorem mpSplit_two {boundary P1 P2 tail1 : List Char}
    (h1 : goIndex (crlf ++ ('-' :: '-' :: boundary)) (P1 ++ (crlf ++ ('-' :: '-' :: boundary)) ++
      (crlf ++ (P2 ++ ((crlf ++ ('-' :: '-' :: boundary)) ++ ('-' :: '-' :: tail1))))) =
      some P1.length)
    (h2 : goIndex (crlf ++ ('-' :: '-' :: boundary))
      (P2 ++ ((crlf ++ ('-' :: '-' :: boundary)) ++ ('-' :: '-' :: tail1))) = some P2.length) :
    mpSplit ((('-' :: '-' :: boundary) ++ crlf) ++
      (P1 ++ (crlf ++ ('-' :: '-' :: boundary)) ++
        (crlf ++ (P2 ++ ((crlf ++ ('-' :: '-' :: boundary)) ++ ('-' :: '-' :: tail1))))))
      boundary = some [P1, P2] := by
  unfold mpSplit
  rw [if_pos (listStartsWith_append_self _ _)]
  have e0 : ((('-' :: '-' :: boundary) ++ crlf) ++
      (P1 ++ (crlf ++ ('-' :: '-' :: boundary)) ++
        (crlf ++ (P2 ++ ((crlf ++ ('-' :: '-' :: boundary)) ++ ('-' :: '-' :: tail1)))))).drop
      (('-' :: '-' :: boundary).length + 2) =
      P1 ++ (crlf ++ ('-' :: '-' :: boundary)) ++
        (crlf ++ (P2 ++ ((crlf ++ ('-' :: '-' :: boundary)) ++ ('-' :: '-' :: tail1)))) :=
    List.drop_left' (by simp [crlf])
  rw [e0]
  apply mpSplitAux_two _ h1 h2
  simp [crlf]
  omega

/-- C5 (amended): for canonical CRLF two-part bodies in which the
`response_format` part precedes the audio file part (so the first marker
occurrence is the field's own header) and the boundary delimiter's first
occurrence after the file headers is the closing delimiter (the audio
payload does not contain "\r\n--b"), replacing the field with "srt" and
extracting it again yields exactly "srt". -/
theorem extract_replace_roundtrip_canonical (audio : List Char)
    (h : goIndex (crlf ++ ('-' :: '-' :: ['b']))
      ((canonFileHdr ++ audio) ++ ((crlf ++ ('-' :: '-' :: ['b'])) ++ ('-' :: '-' :: crlf))) =
      some (canonFileHdr ++ audio).length) :
    extractMultipartField
      (replaceMIMEField (canonBody audio) canonCT "response_format" "srt")
      canonCT "response_format" = ("srt").data := by
  have hrep : replaceMIMEField (canonBody audio) canonCT "response_format" "srt" =
      canonSrtBody audio := by
    exact replaceMIMEField_first_match
      (("--b\r\nContent-Disposition: form-data; ").data) [] (("json").data)
      (("--b\r\n").data ++ (canonFileHdr ++ (audio ++ ("\r\n--b--\r\n").data)))
      canonCT "response_format" "srt"
      (goIndex_append_some (show goIndex (fieldMarker "response_format")
        ((("--b\r\nContent-Disposition: form-data; ").data) ++ fieldMarker "response_format") =
        some (("--b\r\nContent-Disposition: form-data; ").data).length by decide) _)
      (goIndex_append_some (show goIndex crlf2 (([] : List Char) ++ crlf2) =
        some ([] : List Char).length by decide) _)
      (goIndex_append_some (show goIndex crlf ((("json").data) ++ crlf) =
        some (("json").data).length by decide) _)
  rw [hrep]
  have hb : getBoundary (canonCT).data = some ['b'] := by decide
  have hmp : mpSplit (canonSrtBody audio) ['b'] = some [canonP1srt, canonFileHdr ++ audio] := by
    exact mpSplit_two (goIndex_append_some (show goIndex (crlf ++ ('-' :: '-' :: ['b']))
      (canonP1srt ++ (crlf ++ ('-' :: '-' :: ['b']))) = some canonP1srt.length by decide) _) h
  simp only [extractMultipartField, hb, hmp]
  rfl

/-- C5 witness: a concrete audio payload free of the delimiter bytes. -/
theorem extract_replace_roundtrip_canonical_witness :
    extractMultipartField
      (replaceMIMEField (canonBody (("RIFFdata").data)) canonCT "response_format" "srt")
      canonCT "response_format" = ("srt").data :=
  extract_replace_roundtrip_canonical (("RIFFdata").data) (by decide)

/-- C5 counterexample: `cexBody` contains a `response_format` field with
value "json", yet replacing and re-extracting yields "json", not "srt" —
the round-trip law fails when the marker bytes occur inside the audio
payload before the real field. -/
theorem roundtrip_fails_on_marker_in_audio :
    extractMultipartField cexBody cexCT "response_format" = ("json").data ∧
    extractMultipartField (replaceMIMEField cexBody cexCT "response_format" "srt")
      cexCT "response_format" ≠ ("srt").data := by
  constructor
  · decide
  · decide
